import Mathlib

/-!
# Verification of the SAML-test protocol engine
  against `src/utils/samlUtils.ts` and `src/pages/ACS.tsx`

This file gives a shallow embedding, in Lean 4, of the codec, request
builder, signer control flow and response validator of the saml-test
repository, together with theorems settling the frozen claims about them.

Browser / library primitives that the source calls (`btoa`, `atob`,
`encodeURIComponent`, `unescape`, the pako DEFLATE codec, DOM selector
lookups) are modelled executably at the level of detail the source relies
on; each model carries a doc comment saying exactly what it models.

Bytes are `Nat` with explicit `< 256` bounds where they matter; JS strings
are Lean `String` (sequences of Unicode scalar values); fallible
operations return `Option` or `Except`.
-/

/-! ## Base64 (the browser `btoa` / `atob` primitives)

`btoa` maps a latin-1 string (char codes < 256) to its standard base64
encoding with `=` padding.  `atob` implements forgiving-base64 decode
(WHATWG Infra): strip ASCII whitespace, strip up to two trailing `=` when
the length is a multiple of four, fail on length ≡ 1 (mod 4) or on any
character outside the base64 alphabet, then decode sextets to bytes,
discarding leftover bits. -/

/-- The standard base64 alphabet, as a sextet-to-character table. -/
def sextetToChar (n : Nat) : Char :=
  if n < 26 then Char.ofNat (65 + n)
  else if n < 52 then Char.ofNat (97 + (n - 26))
  else if n < 62 then Char.ofNat (48 + (n - 52))
  else if n = 62 then '+'
  else '/'

/-- Inverse table of the base64 alphabet: `none` off the alphabet. -/
def charToSextet (c : Char) : Option Nat :=
  let n := c.toNat
  if 65 ≤ n ∧ n ≤ 90 then some (n - 65)
  else if 97 ≤ n ∧ n ≤ 122 then some (26 + (n - 97))
  else if 48 ≤ n ∧ n ≤ 57 then some (52 + (n - 48))
  else if n = 43 then some 62
  else if n = 47 then some 63
  else none

/-- Byte triples to sextets; a trailing group of one or two bytes yields
two or three sextets with zero fill bits (the unpadded base64 body). -/
def sextetsOf : List Nat → List Nat
  | [] => []
  | [a] => [a / 4, a % 4 * 16]
  | [a, b] => [a / 4, a % 4 * 16 + b / 16, b % 16 * 4]
  | a :: b :: c :: rest =>
      a / 4 :: (a % 4 * 16 + b / 16) :: (b % 16 * 4 + c / 64) :: c % 64 ::
        sextetsOf rest

/-- The `=` padding `btoa` appends, determined by the byte count mod 3. -/
def b64Pad (len : Nat) : List Char :=
  match len % 3 with
  | 0 => []
  | 1 => ['=', '=']
  | _ => ['=']

/-- Browser `btoa` on a byte list (the char codes of its latin-1 input). -/
def btoaBytes (bs : List Nat) : List Char :=
  (sextetsOf bs).map sextetToChar ++ b64Pad bs.length

/-- Sextets back to bytes: each 4-sextet group yields 3 bytes, a trailing
group of 2 or 3 sextets yields 1 or 2 bytes (leftover bits discarded, as
forgiving-base64 does); a trailing single sextet is rejected before this
function is reached and contributes nothing. -/
def sextetsToBytes : List Nat → List Nat
  | s1 :: s2 :: s3 :: s4 :: rest =>
      (s1 * 4 + s2 / 16) :: (s2 % 16 * 16 + s3 / 4) :: (s3 % 4 * 64 + s4) ::
        sextetsToBytes rest
  | [s1, s2, s3] => [s1 * 4 + s2 / 16, s2 % 16 * 16 + s3 / 4]
  | [s1, s2] => [s1 * 4 + s2 / 16]
  | [_] => []
  | [] => []

/-- ASCII whitespace, the characters forgiving-base64 strips. -/
def isB64Ws (c : Char) : Bool :=
  c = ' ' ∨ c = '\t' ∨ c = '\n' ∨ c = '\x0c' ∨ c = '\r'

/-- Strip up to two trailing `=` characters. -/
def stripB64Pad (cs : List Char) : List Char :=
  let cs1 := if cs.getLast? = some '=' then cs.dropLast else cs
  if cs1.getLast? = some '=' then cs1.dropLast else cs1

/-- The base64 digits of an `atob` input: ASCII whitespace removed and,
when the remaining length is a multiple of four, up to two trailing `=`
stripped. -/
def b64Digits (cs : List Char) : List Char :=
  if (cs.filter (fun c => !isB64Ws c)).length % 4 = 0 then
    stripB64Pad (cs.filter (fun c => !isB64Ws c))
  else cs.filter (fun c => !isB64Ws c)

/-- Browser `atob` on a char list: forgiving-base64 decode to a byte
list, `none` on failure (`atob` throws `InvalidCharacterError`). -/
def atobChars (cs : List Char) : Option (List Nat) :=
  if (b64Digits cs).length % 4 = 1 then none
  else ((b64Digits cs).mapM charToSextet).map sextetsToBytes

theorem charToSextet_sextetToChar {n : Nat} (h : n < 64) :
    charToSextet (sextetToChar n) = some n := by
  interval_cases n <;> decide

theorem sextetToChar_not_ws (n : Nat) : isB64Ws (sextetToChar n) = false := by
  rcases Nat.lt_or_ge n 64 with h | h
  · interval_cases n <;> decide
  · simp only [sextetToChar]
    rw [if_neg (by omega), if_neg (by omega), if_neg (by omega),
      if_neg (by omega)]
    decide

theorem sextetToChar_ne_eq (n : Nat) : (sextetToChar n = '=') = False := by
  rcases Nat.lt_or_ge n 64 with h | h
  · interval_cases n <;> decide
  · simp only [sextetToChar]
    rw [if_neg (by omega), if_neg (by omega), if_neg (by omega),
      if_neg (by omega)]
    decide

theorem sextetsOf_lt (bs : List Nat) (hb : ∀ b ∈ bs, b < 256) :
    ∀ s ∈ sextetsOf bs, s < 64 := by
  induction bs using sextetsOf.induct with
  | case1 => simp [sextetsOf]
  | case2 a =>
      have := hb a (by simp)
      simp only [sextetsOf, List.mem_cons, List.not_mem_nil, or_false]
      rintro s (rfl | rfl) <;> omega
  | case3 a b =>
      have ha := hb a (by simp); have hbb := hb b (by simp)
      simp only [sextetsOf, List.mem_cons, List.not_mem_nil, or_false]
      rintro s (rfl | rfl | rfl) <;> omega
  | case4 a b c rest ih =>
      have ha := hb a (by simp); have hbb := hb b (by simp)
      have hc := hb c (by simp)
      simp only [sextetsOf, List.mem_cons]
      rintro s (rfl | rfl | rfl | rfl | hs)
      · omega
      · omega
      · omega
      · omega
      · exact ih (fun x hx => hb x (by simp [hx])) s hs

theorem sextetsToBytes_sextetsOf (bs : List Nat) (hb : ∀ b ∈ bs, b < 256) :
    sextetsToBytes (sextetsOf bs) = bs := by
  induction bs using sextetsOf.induct with
  | case1 => rfl
  | case2 a =>
      have := hb a (by simp)
      simp only [sextetsOf, sextetsToBytes, List.cons.injEq, and_true]
      omega
  | case3 a b =>
      have ha := hb a (by simp); have hbb := hb b (by simp)
      simp only [sextetsOf, sextetsToBytes, List.cons.injEq, and_true]
      refine ⟨by omega, by omega⟩
  | case4 a b c rest ih =>
      have ha := hb a (by simp); have hbb := hb b (by simp)
      have hc := hb c (by simp)
      have ih' := ih (fun x hx => hb x (by simp [hx]))
      simp only [sextetsOf, sextetsToBytes, List.cons.injEq, ih', and_true]
      refine ⟨by omega, by omega, by omega⟩

theorem b64Pad_add_three (n : Nat) : b64Pad (n + 3) = b64Pad n := by
  unfold b64Pad
  rw [Nat.add_mod_right]

theorem btoaBytes_length (bs : List Nat) :
    (btoaBytes bs).length = (bs.length + 2) / 3 * 4 := by
  induction bs using sextetsOf.induct with
  | case1 => rfl
  | case2 a => simp [btoaBytes, sextetsOf, b64Pad]
  | case3 a b => simp [btoaBytes, sextetsOf, b64Pad]
  | case4 a b c rest ih =>
      simp only [btoaBytes, List.length_append, List.length_map] at ih ⊢
      simp only [sextetsOf, List.length_cons, b64Pad_add_three]
      omega

theorem sextetsOf_length_mod (bs : List Nat) :
    (sextetsOf bs).length % 4 ≠ 1 := by
  induction bs using sextetsOf.induct with
  | case1 => simp [sextetsOf]
  | case2 a => simp [sextetsOf]
  | case3 a b => simp [sextetsOf]
  | case4 a b c rest ih =>
      simp only [sextetsOf, List.length_cons]
      omega

theorem getLast?_ne_eq {cs : List Char} (h : ∀ c ∈ cs, ¬c = '=') :
    ¬cs.getLast? = some '=' := by
  intro hc
  exact h '=' (List.mem_of_getLast?_eq_some hc) rfl

theorem stripB64Pad_noPad {cs : List Char} (h : ∀ c ∈ cs, ¬c = '=') :
    stripB64Pad cs = cs := by
  have h1 := getLast?_ne_eq h
  simp [stripB64Pad, h1]

theorem stripB64Pad_onePad {cs : List Char} (h : ∀ c ∈ cs, ¬c = '=') :
    stripB64Pad (cs ++ ['=']) = cs := by
  have h1 := getLast?_ne_eq h
  simp [stripB64Pad, List.getLast?_concat, List.dropLast_concat, h1]

theorem stripB64Pad_twoPad (cs : List Char) :
    stripB64Pad (cs ++ ['=', '=']) = cs := by
  rw [show cs ++ ['=', '='] = (cs ++ ['=']) ++ ['='] by simp]
  simp [stripB64Pad, List.getLast?_concat, List.dropLast_concat]

theorem mapM_charToSextet (ss : List Nat) (h : ∀ s ∈ ss, s < 64) :
    (ss.map sextetToChar).mapM charToSextet = some ss := by
  induction ss with
  | nil => rfl
  | cons s rest ih =>
      have hs := charToSextet_sextetToChar (h s (by simp))
      simp only [List.map_cons, List.mapM_cons, hs,
        ih (fun x hx => h x (by simp [hx])), Option.bind_eq_bind,
        Option.some_bind, Option.pure_def]

theorem btoaBytes_not_ws (bs : List Nat) :
    ∀ c ∈ btoaBytes bs, !isB64Ws c := by
  intro c hc
  rcases List.mem_append.mp hc with hm | hp
  · obtain ⟨s, _, rfl⟩ := List.mem_map.mp hm
    simp [sextetToChar_not_ws]
  · unfold b64Pad at hp
    split at hp <;> simp_all <;> rcases hp with rfl | rfl <;> decide

theorem map_sextetToChar_ne_eq (bs : List Nat) :
    ∀ c ∈ (sextetsOf bs).map sextetToChar, ¬c = '=' := by
  intro c hc
  obtain ⟨s, _, rfl⟩ := List.mem_map.mp hc
  exact fun h => (sextetToChar_ne_eq s) ▸ h

theorem b64Digits_btoaBytes (bs : List Nat) :
    b64Digits (btoaBytes bs) = (sextetsOf bs).map sextetToChar := by
  unfold b64Digits
  rw [List.filter_eq_self.mpr (btoaBytes_not_ws bs)]
  have hlen : (btoaBytes bs).length % 4 = 0 := by
    rw [btoaBytes_length]; omega
  rw [if_pos hlen]
  unfold btoaBytes b64Pad
  split
  · rw [List.append_nil]
    exact stripB64Pad_noPad (map_sextetToChar_ne_eq bs)
  · exact stripB64Pad_twoPad _
  · exact stripB64Pad_onePad (map_sextetToChar_ne_eq bs)

/-- `atob` inverts `btoa` on every byte list: the base64 round trip. -/
theorem atobChars_btoaBytes (bs : List Nat) (hb : ∀ b ∈ bs, b < 256) :
    atobChars (btoaBytes bs) = some bs := by
  unfold atobChars
  rw [b64Digits_btoaBytes]
  rw [if_neg (by simpa using sextetsOf_length_mod bs)]
  rw [mapM_charToSextet _ (sextetsOf_lt bs hb)]
  simp [sextetsToBytes_sextetsOf bs hb]

/-! ## UTF-8

The source feeds JS strings through UTF-8 at two places: pako converts a
string argument to UTF-8 bytes before compressing (and back after
inflating), and `encodeURIComponent` percent-encodes the UTF-8 bytes of
non-unreserved characters.  Code points are `Nat`; a Lean `Char` is
exactly a Unicode scalar value, matching what a well-formed JS string
(no lone surrogates) denotes. -/

/-- The UTF-8 bytes of one code point (standard 1-4 byte forms). -/
def utf8EncodeCp (n : Nat) : List Nat :=
  if n < 0x80 then [n]
  else if n < 0x800 then [0xC0 + n / 64, 0x80 + n % 64]
  else if n < 0x10000 then
    [0xE0 + n / 4096, 0x80 + n / 64 % 64, 0x80 + n % 64]
  else
    [0xF0 + n / 262144, 0x80 + n / 4096 % 64, 0x80 + n / 64 % 64,
      0x80 + n % 64]

/-- The UTF-8 bytes of a string, as pako and `encodeURIComponent` use. -/
def utf8Encode (s : String) : List Nat :=
  s.data.flatMap (fun c => utf8EncodeCp c.toNat)

/-- One step of UTF-8 decoding: consume a single 1-4 byte form from the
front, returning the code point and the remaining bytes; `none` on a
malformed head. -/
def utf8DecodeStep (bs : List Nat) : Option (Nat × List Nat) :=
  match bs with
  | [] => none
  | b :: rest =>
    if b < 0x80 then some (b, rest)
    else if b < 0xC0 then none
    else if b < 0xE0 then
      match rest with
      | b2 :: rest2 =>
        if 0x80 ≤ b2 ∧ b2 < 0xC0 then
          some ((b - 0xC0) * 64 + (b2 - 0x80), rest2)
        else none
      | _ => none
    else if b < 0xF0 then
      match rest with
      | b2 :: b3 :: rest2 =>
        if (0x80 ≤ b2 ∧ b2 < 0xC0) ∧ (0x80 ≤ b3 ∧ b3 < 0xC0) then
          some ((b - 0xE0) * 4096 + (b2 - 0x80) * 64 + (b3 - 0x80), rest2)
        else none
      | _ => none
    else
      match rest with
      | b2 :: b3 :: b4 :: rest2 =>
        if (0x80 ≤ b2 ∧ b2 < 0xC0) ∧ (0x80 ≤ b3 ∧ b3 < 0xC0) ∧
            (0x80 ≤ b4 ∧ b4 < 0xC0) then
          some ((b - 0xF0) * 262144 + (b2 - 0x80) * 4096 +
            (b3 - 0x80) * 64 + (b4 - 0x80), rest2)
        else none
      | _ => none

/-- Iterated UTF-8 decoding; the fuel argument only bounds the number of
steps and is instantiated with the byte count, which every terminating
decode stays within since each step consumes at least one byte. -/
def utf8DecodeLoop : Nat → List Nat → Option (List Nat)
  | _, [] => some []
  | 0, _ :: _ => none
  | fuel + 1, b :: rest =>
    match utf8DecodeStep (b :: rest) with
    | some (cp, rest2) => (utf8DecodeLoop fuel rest2).map (cp :: ·)
    | none => none

/-- UTF-8 decoding of a byte list into code points; `none` on a byte
sequence that is not a concatenation of the 1-4 byte forms.  This is the
correct decode direction used to state the round-trip claims. -/
def utf8DecodeCps (bs : List Nat) : Option (List Nat) :=
  utf8DecodeLoop bs.length bs

/-- UTF-8 decoding of a byte list into a string. -/
def utf8DecodeStr (bs : List Nat) : Option String :=
  (utf8DecodeCps bs).map (fun ns => String.mk (ns.map Char.ofNat))

theorem utf8EncodeCp_lt (n : Nat) (hn : n < 0x110000) :
    ∀ b ∈ utf8EncodeCp n, b < 256 := by
  unfold utf8EncodeCp
  split
  · intro b hb; simp at hb; omega
  · split
    · intro b hb; simp at hb; rcases hb with rfl | rfl <;> omega
    · split
      · intro b hb; simp at hb; rcases hb with rfl | rfl | rfl <;> omega
      · intro b hb; simp at hb; rcases hb with rfl | rfl | rfl | rfl <;> omega

theorem char_toNat_lt (c : Char) : c.toNat < 0x110000 := by
  rcases c.valid with h | h
  · exact Nat.lt_trans h (by norm_num)
  · exact h.2

theorem utf8Encode_lt (s : String) : ∀ b ∈ utf8Encode s, b < 256 := by
  intro b hb
  obtain ⟨c, _, hc⟩ := List.mem_flatMap.mp hb
  exact utf8EncodeCp_lt c.toNat (char_toNat_lt c) b hc

theorem utf8EncodeCp_length_pos (n : Nat) : 1 ≤ (utf8EncodeCp n).length := by
  unfold utf8EncodeCp
  split
  · simp
  · split
    · simp
    · split <;> simp

theorem utf8DecodeStep_enc (n : Nat) (hn : n < 0x110000) (rest : List Nat) :
    utf8DecodeStep (utf8EncodeCp n ++ rest) = some (n, rest) := by
  unfold utf8EncodeCp
  by_cases h1 : n < 0x80
  · rw [if_pos h1]
    simp only [List.cons_append, List.nil_append, utf8DecodeStep]
    rw [if_pos h1]
  · rw [if_neg h1]
    by_cases h2 : n < 0x800
    · rw [if_pos h2]
      simp only [List.cons_append, List.nil_append, utf8DecodeStep]
      rw [if_neg (by omega), if_neg (by omega), if_pos (by omega),
        if_pos (by omega)]
      have he : (0xC0 + n / 64 - 0xC0) * 64 + (0x80 + n % 64 - 0x80) = n := by
        omega
      rw [he]
    · rw [if_neg h2]
      by_cases h3 : n < 0x10000
      · rw [if_pos h3]
        simp only [List.cons_append, List.nil_append, utf8DecodeStep]
        rw [if_neg (by omega), if_neg (by omega), if_neg (by omega),
          if_pos (by omega), if_pos (by omega)]
        have he : (0xE0 + n / 4096 - 0xE0) * 4096 +
            (0x80 + n / 64 % 64 - 0x80) * 64 + (0x80 + n % 64 - 0x80) = n := by
          omega
        rw [he]
      · rw [if_neg h3]
        simp only [List.cons_append, List.nil_append, utf8DecodeStep]
        rw [if_neg (by omega), if_neg (by omega), if_neg (by omega),
          if_neg (by omega), if_pos (by omega)]
        have he : (0xF0 + n / 262144 - 0xF0) * 262144 +
            (0x80 + n / 4096 % 64 - 0x80) * 4096 +
            (0x80 + n / 64 % 64 - 0x80) * 64 + (0x80 + n % 64 - 0x80) = n := by
          omega
        rw [he]

theorem utf8DecodeLoop_flatMap (cs : List Char) :
    ∀ fuel : Nat, (cs.flatMap (fun c => utf8EncodeCp c.toNat)).length ≤ fuel →
      utf8DecodeLoop fuel (cs.flatMap (fun c => utf8EncodeCp c.toNat)) =
        some (cs.map Char.toNat) := by
  induction cs with
  | nil => intro fuel _; cases fuel <;> rfl
  | cons c rest ih =>
      intro fuel hfuel
      have hpos := utf8EncodeCp_length_pos c.toNat
      simp only [List.flatMap_cons, List.length_append] at hfuel ⊢
      rcases henc : utf8EncodeCp c.toNat with _ | ⟨b, ebs⟩
      · rw [henc] at hpos; simp at hpos
      · have hstep := utf8DecodeStep_enc c.toNat (char_toNat_lt c)
          (rest.flatMap (fun c => utf8EncodeCp c.toNat))
        rw [henc] at hstep hfuel
        cases fuel with
        | zero => simp only [List.length_cons] at hfuel; omega
        | succ f =>
            simp only [List.cons_append] at hstep
            simp only [List.cons_append, utf8DecodeLoop, List.append_eq]
            rw [hstep]
            have ihf := ih f (by simp only [List.length_cons] at hfuel; omega)
            simp [ihf]

/-- UTF-8 decode inverts UTF-8 encode, at the code-point level. -/
theorem utf8DecodeCps_utf8Encode (s : String) :
    utf8DecodeCps (utf8Encode s) = some (s.data.map Char.toNat) :=
  utf8DecodeLoop_flatMap s.data _ le_rfl

/-- UTF-8 decode inverts UTF-8 encode, at the string level. -/
theorem utf8DecodeStr_utf8Encode (s : String) :
    utf8DecodeStr (utf8Encode s) = some s := by
  unfold utf8DecodeStr
  rw [utf8DecodeCps_utf8Encode]
  have hmap : (s.data.map Char.toNat).map Char.ofNat = s.data := by
    rw [List.map_map]
    simp [Function.comp_def, Char.ofNat_toNat]
  show some (String.mk ((s.data.map Char.toNat).map Char.ofNat)) = some s
  rw [hmap]

/-! ## DEFLATE (the pako primitives used by the codec)

`encodeSamlRequest` calls `pako.deflate(xml, { level: 9, raw: true })`:
a RAW DEFLATE stream, with no zlib or gzip framing.  The compressor is
modelled here by the stored-block encoding (BTYPE=00), which is a legal
raw DEFLATE stream.  The property the claims rest on is preserved
exactly: the first byte of a raw DEFLATE stream holds the BFINAL/BTYPE
block-header bits, so its low nibble is 0 or 1 for a stored block (and
2-5 or 10-13 for the fixed/dynamic Huffman blocks real pako emits) —
never 8, the zlib CM_DEFLATED method nibble, and never the 0x1F gzip
magic — so zlib/gzip header detection fails on every such stream.

`decodeSamlRequest` calls `pako.inflate(bytes, { to: "string" })` with
no `raw` option: pako then adds 32 to the default `windowBits`, asking
zlib to auto-detect a ZLIB or GZIP header — raw streams are rejected at
the header check (`incorrect header check`).  `inflateAuto` models this:
it accepts only input starting with the gzip magic (whose body parse is
not modelled — unreachable for the streams considered here) or a valid
two-byte zlib header (method 8, window ≤ 7, checksum multiple of 31),
and only then inflates the enclosed DEFLATE body (Adler-32 trailer not
re-verified). -/

/-- Raw DEFLATE via stored blocks: each block is `BFINAL`, `BTYPE=00`
(one byte: 1 for the final block, else 0), then LEN and its complement
NLEN as little-endian 16-bit values, then LEN literal bytes. -/
def deflateRaw (data : List Nat) : List Nat :=
  if h : data.length ≤ 65535 then
    1 :: data.length % 256 :: data.length / 256 ::
      (65535 - data.length) % 256 :: (65535 - data.length) / 256 :: data
  else
    0 :: 255 :: 255 :: 0 :: 0 :: (data.take 65535 ++ deflateRaw (data.drop 65535))
  termination_by data.length
  decreasing_by simp only [List.length_drop]; omega

/-- Parse a sequence of stored DEFLATE blocks (the only block type the
model compressor emits); bytes after the final block are ignored, as
pako ignores trailing input once the stream ends. -/
def inflateStored (bs : List Nat) : Option (List Nat) :=
  match h : bs with
  | bfinal :: l1 :: l2 :: n1 :: n2 :: rest =>
    if l1 + 256 * l2 ≤ rest.length ∧
        n1 + 256 * n2 = 65535 - (l1 + 256 * l2) then
      if bfinal = 1 then some (rest.take (l1 + 256 * l2))
      else if bfinal = 0 then
        (inflateStored (rest.drop (l1 + 256 * l2))).map
          (rest.take (l1 + 256 * l2) ++ ·)
      else none
    else none
  | _ => none
  termination_by bs.length
  decreasing_by simp only [h, List.length_drop, List.length_cons]; omega

/-- `pako.inflate` without the `raw` option: require a gzip magic or a
valid zlib header before inflating; reject everything else, raw DEFLATE
streams included. -/
def inflateAuto (bs : List Nat) : Option (List Nat) :=
  match bs with
  | b0 :: b1 :: rest =>
    if b0 = 0x1F ∧ b1 = 0x8B then
      none
    else if b0 % 16 = 8 ∧ b0 / 16 ≤ 7 ∧ (b0 * 256 + b1) % 31 = 0 then
      inflateStored (rest.take (rest.length - 4))
    else none
  | _ => none

theorem deflateRaw_lt (data : List Nat) (hd : ∀ b ∈ data, b < 256) :
    ∀ b ∈ deflateRaw data, b < 256 := by
  induction data using deflateRaw.induct with
  | case1 data h =>
      rw [deflateRaw, dif_pos h]
      intro b hb
      simp only [List.mem_cons] at hb
      rcases hb with rfl | rfl | rfl | rfl | rfl | hmem
      · omega
      · omega
      · omega
      · omega
      · omega
      · exact hd b hmem
  | case2 data h ih =>
      rw [deflateRaw, dif_neg h]
      intro b hb
      simp only [List.mem_cons, List.mem_append] at hb
      rcases hb with rfl | rfl | rfl | rfl | rfl | hmem | hmem
      · omega
      · omega
      · omega
      · omega
      · omega
      · exact hd b (List.mem_of_mem_take hmem)
      · exact ih (fun x hx => hd x (List.mem_of_mem_drop hx)) b hmem

/-- The intended inverse: raw inflation restores what raw deflation
produced (what `pako.inflate(..., { raw: true })` would have achieved). -/
theorem inflateStored_deflateRaw (data : List Nat) :
    inflateStored (deflateRaw data) = some data := by
  induction data using deflateRaw.induct with
  | case1 data h =>
      rw [deflateRaw, dif_pos h, inflateStored]
      rw [if_pos (by constructor <;> omega)]
      rw [if_pos rfl]
      congr 1
      have : data.length % 256 + 256 * (data.length / 256) = data.length := by
        omega
      rw [this, List.take_of_length_le le_rfl]
  | case2 data h ih =>
      rw [deflateRaw, dif_neg h, inflateStored]
      rw [if_pos (by
        constructor
        · simp only [List.length_append, List.length_take, List.length_drop]
          have := (deflateRaw (data.drop 65535)).length
          omega
        · omega)]
      rw [if_neg (by omega), if_pos rfl]
      have h1 : (255 + 256 * 255 : Nat) = (data.take 65535).length := by
        simp only [List.length_take]; omega
      rw [h1, List.take_left, List.drop_left, ih]
      simp [List.take_append_drop]

theorem inflateAuto_deflateRaw (data : List Nat) :
    inflateAuto (deflateRaw data) = none := by
  rw [deflateRaw]
  split
  · simp only [inflateAuto]
    rw [if_neg (by omega), if_neg (by omega)]
  · simp only [inflateAuto]
    rw [if_neg (by omega), if_neg (by omega)]

/-! ## JS string primitives used by the codec

`encodeURIComponent` leaves the unreserved characters
`A-Z a-z 0-9 - _ . ! ~ * ' ( )` alone and replaces every other
character by the `%XY` uppercase-hex percent encoding of each of its
UTF-8 bytes.  `unescape` (ECMA-262 B.2.1.2) scans left to right: `%u`
followed by four hex digits becomes one code unit, `%` followed by two
hex digits becomes one code unit, anything else is copied verbatim. -/

/-- Is `c` in the `encodeURIComponent` unreserved set? -/
def isUriUnreserved (c : Char) : Bool :=
  (65 ≤ c.toNat ∧ c.toNat ≤ 90) ∨ (97 ≤ c.toNat ∧ c.toNat ≤ 122) ∨
    (48 ≤ c.toNat ∧ c.toNat ≤ 57) ∨
    c ∈ ['-', '_', '.', '!', '~', '*', '\'', '(', ')']

/-- Uppercase hex digit of a nibble. -/
def hexUpper (n : Nat) : Char :=
  if n < 10 then Char.ofNat (48 + n) else Char.ofNat (55 + n)

/-- The `%XY` form of one byte. -/
def percentEncodeByte (b : Nat) : List Char :=
  ['%', hexUpper (b / 16), hexUpper (b % 16)]

/-- JS `encodeURIComponent` over the characters of a string. -/
def encodeURIComponentChars (cs : List Char) : List Char :=
  cs.flatMap (fun c =>
    if isUriUnreserved c then [c]
    else (utf8EncodeCp c.toNat).flatMap percentEncodeByte)

/-- Hex digit (either case), as `unescape` accepts. -/
def isHexDigit (c : Char) : Bool :=
  (48 ≤ c.toNat ∧ c.toNat ≤ 57) ∨ (65 ≤ c.toNat ∧ c.toNat ≤ 70) ∨
    (97 ≤ c.toNat ∧ c.toNat ≤ 102)

/-- Value of a hex digit. -/
def hexVal (c : Char) : Nat :=
  if c.toNat ≤ 57 then c.toNat - 48
  else if c.toNat ≤ 70 then c.toNat - 55
  else c.toNat - 87

/-- One `%`-escape decision of JS `unescape`, given the characters that
follow a `%`: the emitted characters and the characters still to scan.
`%uXXXX` consumes five, `%XY` consumes two, otherwise the `%` alone is
emitted verbatim and nothing more is consumed. -/
def unescapeStep (rest : List Char) : List Char × List Char :=
  match rest with
  | u :: h1 :: h2 :: h3 :: h4 :: rest2 =>
    if u = 'u' ∧ isHexDigit h1 ∧ isHexDigit h2 ∧ isHexDigit h3 ∧
        isHexDigit h4 then
      ([Char.ofNat (4096 * hexVal h1 + 256 * hexVal h2 + 16 * hexVal h3 +
        hexVal h4)], rest2)
    else if isHexDigit u ∧ isHexDigit h1 then
      ([Char.ofNat (16 * hexVal u + hexVal h1)], h2 :: h3 :: h4 :: rest2)
    else (['%'], u :: h1 :: h2 :: h3 :: h4 :: rest2)
  | h1 :: h2 :: rest2 =>
    if isHexDigit h1 ∧ isHexDigit h2 then
      ([Char.ofNat (16 * hexVal h1 + hexVal h2)], rest2)
    else (['%'], h1 :: h2 :: rest2)
  | other => (['%'], other)

theorem unescapeStep_length (rest : List Char) :
    (unescapeStep rest).2.length ≤ rest.length := by
  unfold unescapeStep
  split
  · split
    · simp only [List.length_cons]; omega
    · split <;> simp only [List.length_cons] <;> omega
  · split <;> simp only [List.length_cons] <;> omega
  · exact Nat.le_refl _

/-- JS `unescape` over the characters of a string: `%uXXXX` then `%XY`
then verbatim, restarting after the consumed characters (after just the
`%` when neither form follows). -/
def unescapeChars : List Char → List Char
  | [] => []
  | c :: rest =>
    if c = '%' then
      (unescapeStep rest).1 ++ unescapeChars (unescapeStep rest).2
    else c :: unescapeChars rest
  termination_by cs => cs.length
  decreasing_by
    · simpa using Nat.lt_succ_of_le (unescapeStep_length rest)
    · simp

theorem isHexDigit_hexUpper {n : Nat} (h : n < 16) :
    isHexDigit (hexUpper n) = true := by
  interval_cases n <;> decide

theorem hexVal_hexUpper {n : Nat} (h : n < 16) : hexVal (hexUpper n) = n := by
  interval_cases n <;> decide

theorem hexDigit_ne_u {c : Char} (h : isHexDigit c = true) : ¬c = 'u' := by
  intro hc
  rw [hc] at h
  exact absurd h (by decide)

theorem unescapeStep_hexPair (X Y : Char) (rest : List Char)
    (hX : isHexDigit X = true) (hY : isHexDigit Y = true) :
    unescapeStep (X :: Y :: rest) =
      ([Char.ofNat (16 * hexVal X + hexVal Y)], rest) := by
  have hXu := hexDigit_ne_u hX
  rcases rest with _ | ⟨r1, _ | ⟨r2, _ | ⟨r3, rr⟩⟩⟩ <;>
    simp [unescapeStep, hX, hY, hXu]

theorem unescapeChars_hexPair (X Y : Char) (rest : List Char)
    (hX : isHexDigit X = true) (hY : isHexDigit Y = true) :
    unescapeChars ('%' :: X :: Y :: rest) =
      Char.ofNat (16 * hexVal X + hexVal Y) :: unescapeChars rest := by
  rw [unescapeChars, if_pos rfl, unescapeStep_hexPair X Y rest hX hY]
  simp

theorem unescapeChars_verbatim (c : Char) (rest : List Char)
    (hc : ¬c = '%') : unescapeChars (c :: rest) = c :: unescapeChars rest := by
  simp [unescapeChars, hc]

theorem uriUnreserved_ne_percent {c : Char} (h : isUriUnreserved c = true) :
    ¬c = '%' := by
  intro hc
  rw [hc] at h
  exact absurd h (by decide)

theorem uriUnreserved_ascii {c : Char} (h : isUriUnreserved c = true) :
    c.toNat < 128 := by
  simp only [isUriUnreserved, List.mem_cons, List.not_mem_nil, or_false,
    decide_eq_true_eq] at h
  rcases h with h | h | h | h
  · omega
  · omega
  · omega
  · rcases h with rfl | rfl | rfl | rfl | rfl | rfl | rfl | rfl | rfl <;>
      decide

theorem unescape_percentBytes (bytes : List Nat)
    (hb : ∀ b ∈ bytes, b < 256) (rest : List Char) :
    unescapeChars (bytes.flatMap percentEncodeByte ++ rest) =
      bytes.map Char.ofNat ++ unescapeChars rest := by
  induction bytes with
  | nil => simp
  | cons b bs ih =>
      have hb256 := hb b (by simp)
      simp only [List.flatMap_cons, percentEncodeByte, List.append_assoc,
        List.cons_append, List.map_cons]
      rw [unescapeChars_hexPair _ _ _ (isHexDigit_hexUpper (by omega))
        (isHexDigit_hexUpper (by omega))]
      simp only [List.nil_append]
      rw [ih (fun x hx => hb x (by simp [hx]))]
      rw [hexVal_hexUpper (by omega), hexVal_hexUpper (by omega)]
      have hv : 16 * (b / 16) + b % 16 = b := by omega
      rw [hv]

/-- `unescape` of `encodeURIComponent` yields exactly the UTF-8 bytes of
the original string, one byte per character — the binary-string trick the
POST-binding encoder relies on. -/
theorem unescape_encodeURIComponent (cs : List Char) :
    unescapeChars (encodeURIComponentChars cs) =
      (cs.flatMap (fun c => utf8EncodeCp c.toNat)).map Char.ofNat := by
  induction cs with
  | nil => simp [encodeURIComponentChars, unescapeChars]
  | cons c rest ih =>
      simp only [encodeURIComponentChars, List.flatMap_cons] at ih ⊢
      by_cases hu : isUriUnreserved c
      · rw [if_pos hu]
        have hne := uriUnreserved_ne_percent hu
        simp only [List.singleton_append]
        rw [unescapeChars_verbatim c _ hne, ih]
        have hascii : c.toNat < 128 := uriUnreserved_ascii hu
        rw [show utf8EncodeCp c.toNat = [c.toNat] by
          unfold utf8EncodeCp; rw [if_pos (by omega)]]
        simp [Char.ofNat_toNat]
      · rw [if_neg hu]
        rw [unescape_percentBytes _ (utf8EncodeCp_lt _ (char_toNat_lt c)) _,
          ih]
        simp [List.map_append]

/-! ## The codec functions of `src/utils/samlUtils.ts`

JS strings are Lean `String`.  `String.fromCharCode(...bytes)` followed
by `btoa` is `btoaBytes` applied to the bytes directly (char codes below
256 survive that round trip unchanged); `atob` output read with
`charCodeAt` is the byte list `atobChars` yields.  Functions whose JS
counterparts throw return `Except String`. -/

/-- Lossy UTF-8 to string conversion, as pako applies with
`{ to: "string" }`: a malformed byte decodes to U+FFFD and scanning
resumes at the next byte.  (Unreachable in the theorems below; present
only to complete `decodeSamlRequest`.) -/
def utf8LossyLoop : Nat → List Nat → List Nat
  | _, [] => []
  | 0, _ :: _ => []
  | fuel + 1, b :: rest =>
    match utf8DecodeStep (b :: rest) with
    | some (cp, rest2) => cp :: utf8LossyLoop fuel rest2
    | none => 0xFFFD :: utf8LossyLoop fuel rest

/-- Lossy UTF-8 decode of a byte list to a string. -/
def utf8DecodeLossy (bs : List Nat) : String :=
  String.mk ((utf8LossyLoop bs.length bs).map Char.ofNat)

/-- `encodeSamlRequest` (samlUtils.ts:202): raw DEFLATE at maximum
compression of the UTF-8 bytes of the XML, then base64 via
`btoa(String.fromCharCode(...compressed))`. -/
def encodeSamlRequest (samlRequest : String) : String :=
  String.mk (btoaBytes (deflateRaw (utf8Encode samlRequest)))

/-- `decodeSamlRequest` (samlUtils.ts:212): base64-decode, then
`pako.inflate(compressed, { to: "string" })` — the non-raw inflate that
demands a zlib/gzip header; any failure is caught and rethrown as
`Invalid SAML request encoding`. -/
def decodeSamlRequest (encodedRequest : String) : Except String String :=
  match atobChars encodedRequest.data with
  | none => .error "Invalid SAML request encoding"
  | some compressed =>
    match inflateAuto compressed with
    | none => .error "Invalid SAML request encoding"
    | some xml => .ok (utf8DecodeLossy xml)

/-- `decodeSamlResponse` (samlUtils.ts:228): `atob` only — each decoded
byte becomes one character; errors are caught and rethrown as
`Invalid SAML response encoding`. -/
def decodeSamlResponse (encodedResponse : String) : Except String String :=
  match atobChars encodedResponse.data with
  | none => .error "Invalid SAML response encoding"
  | some bytes => .ok (String.mk (bytes.map Char.ofNat))

/-- `base64EncodeSamlRequest` (samlUtils.ts:242):
`btoa(unescape(encodeURIComponent(samlRequest)))`. -/
def base64EncodeSamlRequest (samlRequest : String) : String :=
  String.mk (btoaBytes
    ((unescapeChars (encodeURIComponentChars samlRequest.data)).map
      Char.toNat))

/-! ## Substring search (for the request-builder claims) -/

/-- Is `pat` a leading segment of `l`? -/
def startsWithChars : List Char → List Char → Bool
  | [], _ => true
  | _ :: _, [] => false
  | p :: ps, c :: cs => p = c && startsWithChars ps cs

/-- Does `l` contain `pat` as a contiguous run? -/
def hasSub : List Char → List Char → Bool
  | _, [] => true
  | [], _ :: _ => false
  | c :: rest, p :: ps =>
      startsWithChars (p :: ps) (c :: rest) || hasSub rest (p :: ps)

/-- Does string `s` contain `pat` as a substring? -/
def strHasSub (s pat : String) : Bool := hasSub s.data pat.data

theorem hasSub_append_right (a : List Char) {b pat : List Char}
    (h : hasSub b pat = true) : hasSub (a ++ b) pat = true := by
  induction a with
  | nil => simpa
  | cons x a2 ih =>
      cases pat with
      | nil => rfl
      | cons p ps =>
          simp only [List.cons_append, hasSub, Bool.or_eq_true]
          exact Or.inr ih

/-! ## The configuration records (`src/types/samlConfig.ts`)

Only the fields the engine reads are carried; the optional UI fields of
the source interfaces play no part in any claim. -/

/-- `IdentityProviderConfig` of samlConfig.ts. -/
structure IdentityProviderConfig where
  entityId : String
  ssoUrl : String
  singleSignOnBinding : String
  wantAuthnRequestsSigned : Bool
  certificate : String

/-- `ServiceProvider` of samlConfig.ts. -/
structure ServiceProvider where
  id : String
  name : String
  entityId : String
  acsUrl : String
  spAcsBinding : String
  privateKey : String
  certificate : String
  signAuthnRequest : Bool
  nameIdFormat : String
  idp : IdentityProviderConfig

/-! ## XML documents as the DOM presents them

An element carries its resolved namespace URI, its prefix (`""` when
none) and its local name, as a parsed `Document` does.  The code locates
elements with `querySelector` lists of qualified-name selectors
(`document order, first match wins`) and with `:scope >` child
selectors; both match on the qualified name exactly. -/

inductive XNode where
  | elem (ns : String) (pfx : String) (ln : String)
      (attrs : List (String × String)) (children : List XNode)
  | text (content : String)

/-- The qualified name a CSS type selector is compared against. -/
def qnameOf : XNode → String
  | .elem _ pfx ln _ _ => if pfx = "" then ln else pfx ++ ":" ++ ln
  | .text _ => ""

/-- The local name (`Element.localName`). -/
def localNameOf : XNode → String
  | .elem _ _ ln _ _ => ln
  | .text _ => ""

/-- Is the node an element? -/
def isElem : XNode → Bool
  | .elem _ _ _ _ _ => true
  | .text _ => false

/-- The child list of a node. -/
def childrenOf : XNode → List XNode
  | .elem _ _ _ _ children => children
  | .text _ => []

/-- `getAttribute`: first binding of the name, `none` when absent. -/
def getAttr (e : XNode) (name : String) : Option String :=
  match e with
  | .elem _ _ _ attrs _ =>
      (attrs.find? (fun a => a.1 = name)).map (fun a => a.2)
  | .text _ => none

mutual
/-- All elements of the subtree in document order (pre-order), the node
itself first — the order `querySelector` searches. -/
def elemsPre : XNode → List XNode
  | .text _ => []
  | .elem ns pfx ln attrs children =>
      XNode.elem ns pfx ln attrs children :: elemsPreL children
/-- Document-order elements of a forest of siblings. -/
def elemsPreL : List XNode → List XNode
  | [] => []
  | n :: rest => elemsPre n ++ elemsPreL rest
end

mutual
/-- `Node.textContent`: concatenated text descendants. -/
def textContent : XNode → String
  | .text s => s
  | .elem _ _ _ _ children => textContentL children
/-- Concatenated text of a forest of siblings. -/
def textContentL : List XNode → String
  | [] => ""
  | n :: rest => textContent n ++ textContentL rest
end

/-- `doc.querySelector("q1, q2, …")` for a list of qualified-name type
selectors: the first element in document order whose qualified name is
one of them. -/
def firstElemQN (doc : XNode) (qns : List String) : Option XNode :=
  (elemsPre doc).find? (fun e => qns.contains (qnameOf e))

/-- `e.querySelector(":scope > q1, :scope > q2")`: the first direct
child element whose qualified name is one of the selectors. -/
def firstChildQN (e : XNode) (qns : List String) : Option XNode :=
  (childrenOf e).find? (fun c => isElem c && qns.contains (qnameOf c))

/-! ## Request builder (`createAuthnRequest`, samlUtils.ts:43) -/

/-- `createAuthnRequest`: the template literal of samlUtils.ts:48-62.
The source draws `requestId` from `generateRequestId()` (a random
correlation token) and `issueInstant` from `new Date().toISOString()`;
both are taken here as explicit arguments, leaving the rest of the
construction the pure string it is in the source. -/
def createAuthnRequest (sp : ServiceProvider) (forceAuthn : Bool)
    (allowCreate : Bool) (requestId issueInstant : String) : String :=
  "<?xml version=\"1.0\" encoding=\"UTF-8\"?>\n<samlp:AuthnRequest xmlns:samlp=\"urn:oasis:names:tc:SAML:2.0:protocol\"\n                    xmlns:saml=\"urn:oasis:names:tc:SAML:2.0:assertion\"\n                    ID=\"" ++
  requestId ++
  "\"\n                    Version=\"2.0\"\n                    IssueInstant=\"" ++
  issueInstant ++
  "\"\n                    ProtocolBinding=\"urn:oasis:names:tc:SAML:2.0:bindings:" ++
  sp.spAcsBinding ++
  "\"\n                    AssertionConsumerServiceURL=\"" ++
  sp.acsUrl ++
  "\"\n                    Destination=\"" ++
  sp.idp.ssoUrl ++
  "\"\n                    " ++
  (if forceAuthn then "ForceAuthn=\"true\"" else "") ++
  ">\n  <saml:Issuer>" ++
  sp.entityId ++
  "</saml:Issuer>\n  <samlp:NameIDPolicy\n    Format=\"" ++
  sp.nameIdFormat ++
  "\"\n    " ++
  (if allowCreate then "AllowCreate=\"true\"" else "AllowCreate=\"false\"") ++
  "/>\n</samlp:AuthnRequest>"

/-! ## Response validation (`validateSAMLResponse`, samlUtils.ts:478)

The two awaited signature checks (`validateResponseSignature`,
`validateAssertionSignature`) call Web Crypto through xmldsigjs; they
are taken as oracle arguments of type `XNode → Except String Bool`, so
every theorem below holds for every possible cryptographic outcome,
including a rejected promise (`Except.error`), which the `try`/`catch`
of the source converts into a `Validation error: …` entry. -/

/-- The outcome record of `validateSAMLResponse`. -/
structure SamlValidationResult where
  isValid : Bool
  responseSigned : Bool
  assertionSigned : Bool
  responseSignatureValid : Bool
  assertionSignatureValid : Bool
  errors : List String
deriving Repr, DecidableEq

/-- The assertion half of `validateSAMLResponse` (samlUtils.ts:512-527),
entered with the response-phase results accumulated: locate the first
`saml:Assertion, Assertion` element, test for a `:scope >`
`ds:Signature, Signature` child, run the assertion oracle if signed,
then flag the document when neither part was signed. -/
def validateAssertionPhase (doc : XNode)
    (vA : XNode → Except String Bool) (responseSigned rv v1 : Bool)
    (errs1 : List String) : SamlValidationResult :=
  let aSigned :=
    match firstElemQN doc ["saml:Assertion", "Assertion"] with
    | some ae => (firstChildQN ae ["ds:Signature", "Signature"]).isSome
    | none => false
  if aSigned then
    match vA doc with
    | .error m =>
        ⟨false, responseSigned, true, rv, false,
          errs1 ++ ["Validation error: " ++ m]⟩
    | .ok av =>
        if av then ⟨v1, responseSigned, true, rv, true, errs1⟩
        else
          ⟨false, responseSigned, true, rv, false,
            errs1 ++ ["Assertion signature validation failed"]⟩
  else
    if responseSigned then ⟨v1, responseSigned, false, rv, false, errs1⟩
    else
      ⟨false, responseSigned, false, rv, false,
        errs1 ++ ["Neither response nor assertion is signed"]⟩

/-- `validateSAMLResponse`: fail fast when the IdP certificate is not
configured; find the first `samlp:Response, Response` element and test
for a direct-child `ds:Signature, Signature`; when present run the
response oracle (a thrown error is caught into `Validation error: …`);
then the assertion phase. -/
def validateSAMLResponse (doc : XNode) (sp : ServiceProvider)
    (vR vA : XNode → Except String Bool) : SamlValidationResult :=
  if sp.idp.certificate = "" then
    ⟨false, false, false, false, false, ["IDP certificate not configured"]⟩
  else
    let rSigned :=
      match firstElemQN doc ["samlp:Response", "Response"] with
      | some re => (firstChildQN re ["ds:Signature", "Signature"]).isSome
      | none => false
    if rSigned then
      match vR doc with
      | .error m => ⟨false, true, false, false, false, ["Validation error: " ++ m]⟩
      | .ok rv =>
          if rv then validateAssertionPhase doc vA true rv true []
          else
            validateAssertionPhase doc vA true rv false
              ["Response signature validation failed"]
    else validateAssertionPhase doc vA false false true []

/-! ## NameID extraction (`processSAMLResponseData`, ACS.tsx:165-167)

`xmlDoc.querySelector("saml\\:NameID, NameID")` then
`nameIdElement?.textContent || undefined`: the empty string is falsy, so
an empty or missing element yields `undefined`. -/

/-- The NameID extraction of ACS.tsx. -/
def extractNameId (doc : XNode) : Option String :=
  match firstElemQN doc ["saml:NameID", "NameID"] with
  | some e => if textContent e = "" then none else some (textContent e)
  | none => none

/-- The resolved namespace URI of an element. -/
def nsOf : XNode → String
  | .elem ns _ _ _ _ => ns
  | .text _ => ""

/-! ## Request signing (`signAuthnRequest`, samlUtils.ts:70)

The body parses the request, locates the `samlp:AuthnRequest,
AuthnRequest` element, reads its `ID` (`null` or the empty string both
fail the `if (!requestId)` check), then performs the external,
fallible steps: the dynamic loading of xmldsigjs plus the PKCS#8
key conversion (`convertPemToCryptoKey`), the `SignedXml.Sign` call, and
serializes the signed document.  The external steps are oracle fields,
so the theorems quantify over every possible crypto outcome.  The whole
body sits in a `try` whose `catch` returns the unsigned input
(`// Return unsigned request if signing fails`). -/

/-- The environment of external operations `signAuthnRequest` invokes. -/
structure SignEnv where
  parse : String → XNode
  importPrivateKey : String → Except String Unit
  signOp : Except String Unit
  serializeSigned : String

/-- The `try` body of `signAuthnRequest`: each failure surfaces as the
`Except.error` the corresponding `throw` raises. -/
def signAuthnRequestE (samlRequest privateKeyPem : String)
    (env : SignEnv) : Except String String :=
  match firstElemQN (env.parse samlRequest)
      ["samlp:AuthnRequest", "AuthnRequest"] with
  | none => .error "AuthnRequest element not found"
  | some ar =>
    match getAttr ar "ID" with
    | none => .error "AuthnRequest must have an ID attribute"
    | some rid =>
      if rid = "" then .error "AuthnRequest must have an ID attribute"
      else
        match env.importPrivateKey privateKeyPem with
        | .error e => .error e
        | .ok _ =>
          match env.signOp with
          | .error e => .error e
          | .ok _ => .ok env.serializeSigned

/-- `signAuthnRequest`: the `try` body under a `catch` that returns the
unsigned input string unchanged. -/
def signAuthnRequest (samlRequest privateKeyPem : String)
    (env : SignEnv) : String :=
  match signAuthnRequestE samlRequest privateKeyPem env with
  | .ok out => out
  | .error _ => samlRequest

/-! ## Supporting lemmas -/

theorem char_toNat_ofNat {n : Nat} (h : n < 55296) :
    (Char.ofNat n).toNat = n := by
  have hv : n.isValidChar := Or.inl h
  simp [Char.ofNat, hv, Char.toNat, Char.ofNatAux]
  rfl

theorem isElem_mem_elemsPre {c : XNode} (hel : isElem c = true) :
    c ∈ elemsPre c := by
  cases c with
  | elem ns pfx ln attrs children => simp [elemsPre]
  | text s => simp [isElem] at hel

theorem self_mem_elemsPreL {c : XNode} (hel : isElem c = true) :
    ∀ l : List XNode, c ∈ l → c ∈ elemsPreL l := by
  intro l hc
  induction l with
  | nil => simp at hc
  | cons n rest ih =>
      simp only [elemsPreL, List.mem_append]
      rcases List.mem_cons.mp hc with rfl | h2
      · exact Or.inl (isElem_mem_elemsPre hel)
      · exact Or.inr (ih h2)

mutual
theorem child_mem_elemsPre (n : XNode) {e c : XNode} (he : e ∈ elemsPre n)
    (hc : c ∈ childrenOf e) (hel : isElem c = true) : c ∈ elemsPre n := by
  cases n with
  | text s => simp [elemsPre] at he
  | elem ns pfx ln attrs children =>
      simp only [elemsPre, List.mem_cons] at he ⊢
      rcases he with rfl | he2
      · exact Or.inr (self_mem_elemsPreL hel children hc)
      · exact Or.inr (child_mem_elemsPreL children he2 hc hel)
theorem child_mem_elemsPreL (l : List XNode) {e c : XNode}
    (he : e ∈ elemsPreL l) (hc : c ∈ childrenOf e)
    (hel : isElem c = true) : c ∈ elemsPreL l := by
  cases l with
  | nil => simp [elemsPreL] at he
  | cons n rest =>
      simp only [elemsPreL, List.mem_append] at he ⊢
      rcases he with h | h
      · exact Or.inl (child_mem_elemsPre n h hc hel)
      · exact Or.inr (child_mem_elemsPreL rest h hc hel)
end

theorem firstElemQN_mem {doc e : XNode} {qns : List String}
    (h : firstElemQN doc qns = some e) : e ∈ elemsPre doc :=
  List.mem_of_find?_eq_some h

/-- A document whose root element carries a matching qualified name is
its own first `querySelector` hit. -/
theorem firstElemQN_root {doc : XNode} {qns : List String}
    (hel : isElem doc = true) (h : qnameOf doc ∈ qns) :
    firstElemQN doc qns = some doc := by
  cases doc with
  | text s => simp [isElem] at hel
  | elem ns pfx ln attrs children =>
      unfold firstElemQN
      simp only [elemsPre]
      exact List.find?_cons_of_pos _ (by simpa using h)

/-- No direct child matches the child selector when no child element
carries one of the qualified names. -/
theorem firstChildQN_none {e : XNode} {qns : List String}
    (h : ∀ c ∈ childrenOf e, isElem c = true → qnameOf c ∉ qns) :
    firstChildQN e qns = none := by
  unfold firstChildQN
  rw [List.find?_eq_none]
  intro c hc
  by_cases hel : isElem c = true
  · simp [hel, h c hc hel]
  · simp [Bool.eq_false_iff.mpr hel]

/-- A direct child element carrying a matching qualified name makes the
child selector fire. -/
theorem firstChildQN_isSome {e sg : XNode} {qns : List String}
    (hmem : sg ∈ childrenOf e) (hel : isElem sg = true)
    (h : qnameOf sg ∈ qns) :
    (firstChildQN e qns).isSome = true := by
  unfold firstChildQN
  rw [List.find?_isSome]
  exact ⟨sg, hmem, by simp [hel, h]⟩

/-- Both halves of the validator preserve the accumulator invariant
`isValid ↔ no errors`: every error push in the source is paired with
`result.isValid = false` and nothing else clears `isValid`. -/
theorem validateAssertionPhase_iff (doc : XNode)
    (vA : XNode → Except String Bool) (rs rv v1 : Bool)
    (errs1 : List String) (hinv : v1 = true ↔ errs1 = []) :
    ((validateAssertionPhase doc vA rs rv v1 errs1).isValid = true ↔
      (validateAssertionPhase doc vA rs rv v1 errs1).errors = []) := by
  simp only [validateAssertionPhase]
  split
  · cases hvA : vA doc with
    | error m => simp
    | ok av =>
        cases av with
        | true => simpa using hinv
        | false => simp
  · split
    · simpa using hinv
    · simp

/-! ## The claims -/

/-- C10: `validateSAMLResponse` is total — modelled as a pure function
of the document, the configuration and the two signature oracles, with
a thrown oracle error (`Except.error`) caught into a
`Validation error: …` entry — and its result is internally consistent:
`isValid = true` exactly when the `errors` list is empty, for every
document, configuration and pair of oracle outcomes. -/
theorem validateSAMLResponse_isValid_iff (doc : XNode)
    (sp : ServiceProvider) (vR vA : XNode → Except String Bool) :
    ((validateSAMLResponse doc sp vR vA).isValid = true ↔
      (validateSAMLResponse doc sp vR vA).errors = []) := by
  simp only [validateSAMLResponse]
  split
  · simp
  · split
    · cases hvR : vR doc with
      | error m => simp
      | ok rv =>
          cases rv with
          | true => exact validateAssertionPhase_iff _ _ _ _ _ _ (by simp)
          | false => exact validateAssertionPhase_iff _ _ _ _ _ _ (by simp)
    · exact validateAssertionPhase_iff _ _ _ _ _ _ (by simp)

/-- C1 (code bug): the Redirect-binding round trip never succeeds — for
EVERY XML string `x`, `decodeSamlRequest (encodeSamlRequest x)` throws
`Invalid SAML request encoding` instead of returning `x`.
`encodeSamlRequest` compresses with `pako.deflate(..., raw: true)` (a
headerless raw DEFLATE stream) but `decodeSamlRequest` inflates with
`pako.inflate(..., { to: "string" })` and no `raw` option, which
auto-detects only zlib/gzip headers and rejects every raw stream. -/
theorem redirect_roundTrip_always_fails (x : String) :
    decodeSamlRequest (encodeSamlRequest x) =
      .error "Invalid SAML request encoding" := by
  unfold decodeSamlRequest encodeSamlRequest
  rw [show (String.mk (btoaBytes (deflateRaw (utf8Encode x)))).data =
    btoaBytes (deflateRaw (utf8Encode x)) from rfl]
  simp only [atobChars_btoaBytes _ (deflateRaw_lt _ (utf8Encode_lt x)),
    inflateAuto_deflateRaw]

/-- C9: the POST-binding request encoding round-trips — base64-decoding
`base64EncodeSamlRequest x` and UTF-8-decoding the resulting bytes
restores `x`, for every string `x`; the encoding is uncompressed,
UTF-8-safe base64. -/
theorem postBinding_roundTrip (x : String) :
    (atobChars (base64EncodeSamlRequest x).data).bind utf8DecodeStr =
      some x := by
  have hdata : (base64EncodeSamlRequest x).data =
      btoaBytes ((unescapeChars (encodeURIComponentChars x.data)).map
        Char.toNat) := rfl
  rw [hdata, unescape_encodeURIComponent]
  have hmap : ((x.data.flatMap (fun c => utf8EncodeCp c.toNat)).map
      Char.ofNat).map Char.toNat = utf8Encode x := by
    rw [List.map_map]
    have hpt : ∀ b ∈ x.data.flatMap (fun c => utf8EncodeCp c.toNat),
        (Char.toNat ∘ Char.ofNat) b = b := by
      intro b hb
      have hlt : b < 256 := utf8Encode_lt x b hb
      exact char_toNat_ofNat (by omega)
    rw [List.map_congr_left hpt]
    exact List.map_id' _
  rw [hmap, atobChars_btoaBytes _ (utf8Encode_lt x)]
  simp [utf8DecodeStr_utf8Encode x]

/-- C8: `decodeSamlResponse` is base64-only.  Every `btoa` encoding of a
byte list decodes back to exactly those bytes as a string — no
inflation, so a compressed payload comes back still compressed — and
every input `atob` rejects makes the function throw
`Invalid SAML response encoding`. -/
theorem decodeSamlResponse_base64_only :
    (∀ bs : List Nat, (∀ b ∈ bs, b < 256) →
        decodeSamlResponse (String.mk (btoaBytes bs)) =
          .ok (String.mk (bs.map Char.ofNat))) ∧
    (∀ s : String, atobChars s.data = none →
        decodeSamlResponse s = .error "Invalid SAML response encoding") := by
  constructor
  · intro bs hb
    unfold decodeSamlResponse
    rw [show (String.mk (btoaBytes bs)).data = btoaBytes bs from rfl]
    rw [atobChars_btoaBytes bs hb]
  · intro s hs
    unfold decodeSamlResponse
    rw [hs]

theorem decodeSamlResponse_base64_only_witness :
    decodeSamlResponse (String.mk (btoaBytes [120, 218, 99, 96])) =
      .ok (String.mk ([120, 218, 99, 96].map Char.ofNat)) ∧
    decodeSamlResponse "?!" = .error "Invalid SAML response encoding" :=
  ⟨decodeSamlResponse_base64_only.1 [120, 218, 99, 96] (by decide),
   decodeSamlResponse_base64_only.2 "?!" (by decide)⟩

theorem signAuthnRequestE_ok {samlRequest privateKeyPem : String}
    {env : SignEnv} {out : String}
    (h : signAuthnRequestE samlRequest privateKeyPem env = .ok out) :
    out = env.serializeSigned := by
  unfold signAuthnRequestE at h
  split at h
  · exact absurd h (by simp)
  · split at h
    · exact absurd h (by simp)
    · split at h
      · exact absurd h (by simp)
      · split at h
        · exact absurd h (by simp)
        · split at h
          · exact absurd h (by simp)
          · simpa using h.symm

/-- C4: the signer applies one consistent failure policy.  Whatever the
input and whatever the external crypto operations do, either some step
fails — the `try` body yields the typed error of the failing step — and
the function returns the unsigned input string unchanged, or every step
succeeds and the function returns exactly the serialization of the
fully signed document; no third outcome (such as a partially filled
signature) exists. -/
theorem signAuthnRequest_failure_policy (samlRequest privateKeyPem : String)
    (env : SignEnv) :
    (∃ e, signAuthnRequestE samlRequest privateKeyPem env = .error e ∧
        signAuthnRequest samlRequest privateKeyPem env = samlRequest) ∨
    (signAuthnRequestE samlRequest privateKeyPem env =
        .ok env.serializeSigned ∧
      signAuthnRequest samlRequest privateKeyPem env =
        env.serializeSigned) := by
  unfold signAuthnRequest
  cases hE : signAuthnRequestE samlRequest privateKeyPem env with
  | error e => exact Or.inl ⟨e, rfl, rfl⟩
  | ok out =>
      have := signAuthnRequestE_ok hE
      subst this
      exact Or.inr ⟨rfl, rfl⟩

set_option maxRecDepth 40000

/-! ## Concrete fixtures for the scenario claims -/

/-- The xmldsig namespace URI. -/
def xmldsigNs : String := "http://www.w3.org/2000/09/xmldsig#"

/-- The SAML protocol namespace URI. -/
def samlpNs : String := "urn:oasis:names:tc:SAML:2.0:protocol"

/-- The SAML assertion namespace URI. -/
def samlNs : String := "urn:oasis:names:tc:SAML:2.0:assertion"

/-- The concrete-scenario service provider of the spec: entityId
`urn:test:sp`, ACS `https://host/acs?sp=test`, IdP SSO URL
`https://idp/sso`, with an IdP certificate configured. -/
def cSp : ServiceProvider :=
  { id := "sp1"
    name := "Test SP"
    entityId := "urn:test:sp"
    acsUrl := "https://host/acs?sp=test"
    spAcsBinding := "POST"
    privateKey := ""
    certificate := ""
    signAuthnRequest := false
    nameIdFormat := "urn:oasis:names:tc:SAML:1.1:nameid-format:unspecified"
    idp :=
      { entityId := "urn:test:idp"
        ssoUrl := "https://idp/sso"
        singleSignOnBinding := "POST"
        wantAuthnRequestsSigned := false
        certificate := "MIIBtestcert" } }

/-- C6 (counterexample): at a concrete input, no setting of the two
flags makes `createAuthnRequest` emit any `IsPassive` attribute — the
template simply contains none — refuting the claimed
`IsPassive="false"` marker. -/
theorem isPassive_never_emitted_counterexample :
    strHasSub (createAuthnRequest cSp false false "_rid0" "t0")
      "IsPassive" = false ∧
    strHasSub (createAuthnRequest cSp false true "_rid0" "t0")
      "IsPassive" = false ∧
    strHasSub (createAuthnRequest cSp true false "_rid0" "t0")
      "IsPassive" = false ∧
    strHasSub (createAuthnRequest cSp true true "_rid0" "t0")
      "IsPassive" = false := by
  refine ⟨?_, ?_, ?_, ?_⟩ <;> decide

/-- C6 (amended): `createAuthnRequest` emits `ForceAuthn="true"` exactly
when `forceAuthn` is set, never emits `IsPassive` under any flag
setting, and `NameIDPolicy/@AllowCreate` mirrors `allowCreate`
(`AllowCreate="true"` exactly when set, `AllowCreate="false"` exactly
when clear). -/
theorem authnRequest_flags_amended (f a : Bool) :
    strHasSub (createAuthnRequest cSp f a "_rid0" "t0")
      "ForceAuthn=\"true\"" = f ∧
    strHasSub (createAuthnRequest cSp f a "_rid0" "t0") "IsPassive" = false ∧
    strHasSub (createAuthnRequest cSp f a "_rid0" "t0")
      "AllowCreate=\"true\"" = a ∧
    strHasSub (createAuthnRequest cSp f a "_rid0" "t0")
      "AllowCreate=\"false\"" = !a := by
  cases f <;> cases a <;> exact ⟨by decide, by decide, by decide, by decide⟩

/-- C7: for the spec's concrete scenario (SP `urn:test:sp`, ACS
`https://host/acs?sp=test`, IdP SSO `https://idp/sso`,
`forceAuthn = true`, `allowCreate = false`) the produced XML contains
`ForceAuthn="true"`, `AllowCreate="false"` and
`Destination="https://idp/sso"`, whatever request id and issue instant
are drawn. -/
theorem authnRequest_concrete_scenario (rid inst : String) :
    strHasSub (createAuthnRequest cSp true false rid inst)
      "ForceAuthn=\"true\"" = true ∧
    strHasSub (createAuthnRequest cSp true false rid inst)
      "AllowCreate=\"false\"" = true ∧
    strHasSub (createAuthnRequest cSp true false rid inst)
      "Destination=\"https://idp/sso\"" = true := by
  refine ⟨?_, ?_, ?_⟩ <;>
  · unfold strHasSub createAuthnRequest
    simp only [String.data_append, List.append_assoc, if_true]
    apply hasSub_append_right
    apply hasSub_append_right
    apply hasSub_append_right
    apply hasSub_append_right
    decide

/-- A Signature element of the xmldsig namespace carrying the
nonstandard prefix `dsig`. -/
def cSigDsig : XNode := .elem xmldsigNs "dsig" "Signature" [] []

/-- An Assertion whose only child is the `dsig:Signature`. -/
def cAssertWrap : XNode := .elem samlNs "saml" "Assertion" [("ID", "_a1")]
  [cSigDsig]

/-- A Response document whose only Signature element (xmldsig
namespace, local name `Signature`) is a direct child of the Assertion
and not of the root Response. -/
def cRespWrap : XNode := .elem samlpNs "samlp" "Response" [("ID", "_r1")]
  [cAssertWrap]

/-- C2 (counterexample): `cRespWrap` satisfies the claim's hypothesis —
its only Signature element (namespace `http://www.w3.org/2000/09/xmldsig#`,
local name `Signature`) is a direct child of the Assertion element and
not of the root Response — yet `validateSAMLResponse` reports
`assertionSigned = false`, not `true` as claimed: the `:scope >`
selectors match the qualified names `ds:Signature, Signature` only, and
this signature's qualified name is `dsig:Signature`. -/
theorem wrapping_prefix_counterexample :
    ((elemsPre cRespWrap).map qnameOf =
        ["samlp:Response", "saml:Assertion", "dsig:Signature"] ∧
      (elemsPre cRespWrap).map localNameOf =
        ["Response", "Assertion", "Signature"] ∧
      childrenOf cAssertWrap = [cSigDsig] ∧
      childrenOf cRespWrap = [cAssertWrap] ∧
      nsOf cSigDsig = xmldsigNs ∧ localNameOf cSigDsig = "Signature") ∧
    (validateSAMLResponse cRespWrap cSp (fun _ => .ok true)
        (fun _ => .ok true)).assertionSigned = false := by
  exact ⟨⟨rfl, rfl, rfl, rfl, rfl, rfl⟩, rfl⟩

/-- C2 (amended): for every Response document using the standard
qualified names — root element named `samlp:Response` or `Response`
with no direct-child `ds:Signature`/`Signature`, and the first
`saml:Assertion`/`Assertion` element carrying a direct-child element
named `ds:Signature` or `Signature` — `validateSAMLResponse` reports
`responseSigned = false` and `assertionSigned = true`, and never
attributes the assertion's signature to the response:
`responseSignatureValid` stays `false` for every outcome of both
signature oracles. -/
theorem wrapping_resistance_standard_prefixes
    (doc a sg : XNode) (sp : ServiceProvider)
    (vR vA : XNode → Except String Bool)
    (hcert : ¬sp.idp.certificate = "")
    (hrootel : isElem doc = true)
    (hrootqn : qnameOf doc ∈ ["samlp:Response", "Response"])
    (hnosig : ∀ c ∈ childrenOf doc, isElem c = true →
      qnameOf c ∉ ["ds:Signature", "Signature"])
    (hassert : firstElemQN doc ["saml:Assertion", "Assertion"] = some a)
    (hsg : sg ∈ childrenOf a) (hsgel : isElem sg = true)
    (hsgqn : qnameOf sg ∈ ["ds:Signature", "Signature"]) :
    (validateSAMLResponse doc sp vR vA).responseSigned = false ∧
    (validateSAMLResponse doc sp vR vA).assertionSigned = true ∧
    (validateSAMLResponse doc sp vR vA).responseSignatureValid = false := by
  simp only [validateSAMLResponse]
  rw [if_neg hcert, firstElemQN_root hrootel hrootqn]
  simp only [firstChildQN_none hnosig, Option.isSome_none,
    Bool.false_eq_true, if_false, validateAssertionPhase]
  rw [hassert]
  simp only [firstChildQN_isSome hsg hsgel hsgqn, if_true]
  cases hvA : vA doc with
  | error m => exact ⟨rfl, rfl, rfl⟩
  | ok av => cases av <;> exact ⟨rfl, rfl, rfl⟩

theorem wrapping_resistance_witness :
    ((validateSAMLResponse
        (XNode.elem samlpNs "samlp" "Response" []
          [XNode.elem samlNs "saml" "Assertion" []
            [XNode.elem xmldsigNs "ds" "Signature" [] []]])
        cSp (fun _ => .ok true) (fun _ => .ok true)).responseSigned =
      false) ∧
    ((validateSAMLResponse
        (XNode.elem samlpNs "samlp" "Response" []
          [XNode.elem samlNs "saml" "Assertion" []
            [XNode.elem xmldsigNs "ds" "Signature" [] []]])
        cSp (fun _ => .ok true) (fun _ => .ok true)).assertionSigned =
      true) ∧
    ((validateSAMLResponse
        (XNode.elem samlpNs "samlp" "Response" []
          [XNode.elem samlNs "saml" "Assertion" []
            [XNode.elem xmldsigNs "ds" "Signature" [] []]])
        cSp (fun _ => .ok true)
        (fun _ => .ok true)).responseSignatureValid = false) :=
  wrapping_resistance_standard_prefixes
    (XNode.elem samlpNs "samlp" "Response" []
      [XNode.elem samlNs "saml" "Assertion" []
        [XNode.elem xmldsigNs "ds" "Signature" [] []]])
    (XNode.elem samlNs "saml" "Assertion" []
      [XNode.elem xmldsigNs "ds" "Signature" [] []])
    (XNode.elem xmldsigNs "ds" "Signature" [] [])
    cSp (fun _ => .ok true) (fun _ => .ok true)
    (by decide) rfl (by simp [qnameOf])
    (by
      intro c hc hel
      simp only [childrenOf, List.mem_cons, List.not_mem_nil, or_false]
        at hc
      subst hc
      simp [qnameOf])
    rfl (by simp [childrenOf]) rfl (by simp [qnameOf])

/-- C3: for every document containing no Signature element anywhere (no
element the `ds:Signature, Signature` selectors could match), with an
IdP certificate configured, `validateSAMLResponse` returns exactly
`isValid = false`, `responseSigned = false`, `assertionSigned = false`,
both validity flags `false`, and the single error entry
`Neither response nor assertion is signed` — for every outcome of both
signature oracles. -/
theorem unsigned_response_flagged (doc : XNode) (sp : ServiceProvider)
    (vR vA : XNode → Except String Bool)
    (hcert : ¬sp.idp.certificate = "")
    (hnosig : ∀ e ∈ elemsPre doc, isElem e = true →
      qnameOf e ∉ ["ds:Signature", "Signature"]) :
    validateSAMLResponse doc sp vR vA =
      ⟨false, false, false, false, false,
        ["Neither response nor assertion is signed"]⟩ := by
  have hchild : ∀ par, firstElemQN doc
      ["samlp:Response", "Response"] = some par ∨ firstElemQN doc
      ["saml:Assertion", "Assertion"] = some par →
      firstChildQN par ["ds:Signature", "Signature"] = none := by
    intro par hpar
    have hmem : par ∈ elemsPre doc := by
      rcases hpar with h | h <;> exact firstElemQN_mem h
    apply firstChildQN_none
    intro c hc hel
    exact hnosig c (child_mem_elemsPre doc hmem hc hel) hel
  simp only [validateSAMLResponse]
  rw [if_neg hcert]
  cases hre : firstElemQN doc ["samlp:Response", "Response"] with
  | none =>
      simp only [Bool.false_eq_true, if_false, validateAssertionPhase]
      cases hae : firstElemQN doc ["saml:Assertion", "Assertion"] with
      | none => simp
      | some ae =>
          simp only [hchild ae (Or.inr hae), Option.isSome_none,
            Bool.false_eq_true, if_false, List.nil_append]
  | some re =>
      simp only [hchild re (Or.inl hre), Option.isSome_none,
        Bool.false_eq_true, if_false, validateAssertionPhase]
      cases hae : firstElemQN doc ["saml:Assertion", "Assertion"] with
      | none => simp
      | some ae =>
          simp only [hchild ae (Or.inr hae), Option.isSome_none,
            Bool.false_eq_true, if_false, List.nil_append]

/-- An entirely unsigned Response document. -/
def cRespUnsigned : XNode := .elem samlpNs "samlp" "Response" [("ID", "_r2")]
  [.elem samlNs "saml" "Assertion" [("ID", "_a2")]
    [.elem samlNs "saml" "NameID" [] [.text "alice"]]]

theorem unsigned_response_flagged_witness :
    validateSAMLResponse cRespUnsigned cSp (fun _ => .ok true)
        (fun _ => .ok true) =
      ⟨false, false, false, false, false,
        ["Neither response nor assertion is signed"]⟩ :=
  unsigned_response_flagged cRespUnsigned cSp _ _ (by decide)
    (by
      intro e he hel
      simp only [show elemsPre cRespUnsigned =
        [XNode.elem samlpNs "samlp" "Response" [("ID", "_r2")]
          [XNode.elem samlNs "saml" "Assertion" [("ID", "_a2")]
            [XNode.elem samlNs "saml" "NameID" [] [.text "alice"]]],
         XNode.elem samlNs "saml" "Assertion" [("ID", "_a2")]
          [XNode.elem samlNs "saml" "NameID" [] [.text "alice"]],
         XNode.elem samlNs "saml" "NameID" [] [.text "alice"]] from rfl,
        List.mem_cons, List.not_mem_nil, or_false] at he
      rcases he with rfl | rfl | rfl <;> simp [qnameOf])

/-- A Response whose NameID carries the nonstandard prefix `saml2`. -/
def cRespNameId2 : XNode := .elem samlpNs "samlp" "Response" []
  [.elem samlNs "saml2" "NameID" [] [.text "alice"]]

/-- C5 (counterexample): `cRespNameId2` contains exactly one element of
local name `NameID` (text `alice`, prefix `saml2`), so a namespace- or
prefix-agnostic local-name lookup would extract `alice` — but the code
selects with `saml\\:NameID, NameID`, whose qualified names do not
match `saml2:NameID`, and extracts nothing. -/
theorem nameId_prefix_counterexample :
    ((elemsPre cRespNameId2).map localNameOf = ["Response", "NameID"] ∧
      (elemsPre cRespNameId2).map qnameOf =
        ["samlp:Response", "saml2:NameID"] ∧
      textContent (XNode.elem samlNs "saml2" "NameID" [] [.text "alice"]) =
        "alice") ∧
    extractNameId cRespNameId2 = none := by
  exact ⟨⟨rfl, rfl, rfl⟩, rfl⟩

/-- C5 (amended): the parser locates NameID by qualified name — the
first element in document order whose qualified name is `saml:NameID`
or (unprefixed) `NameID` — and the extracted `nameId` is that element's
text content, provided it is nonempty (the empty string is falsy and
yields no NameID). -/
theorem nameId_qname_lookup (doc e : XNode)
    (h : firstElemQN doc ["saml:NameID", "NameID"] = some e)
    (ht : ¬textContent e = "") :
    extractNameId doc = some (textContent e) := by
  unfold extractNameId
  rw [h]
  simp only [if_neg ht]

theorem nameId_qname_lookup_witness :
    extractNameId (XNode.elem samlpNs "samlp" "Response" []
        [XNode.elem samlNs "saml" "NameID" [] [.text "alice"]]) =
      some (textContent (XNode.elem samlNs "saml" "NameID" []
        [.text "alice"])) :=
  nameId_qname_lookup
    (XNode.elem samlpNs "samlp" "Response" []
      [XNode.elem samlNs "saml" "NameID" [] [.text "alice"]])
    (XNode.elem samlNs "saml" "NameID" [] [.text "alice"])
    rfl (by simp [textContent, textContentL])
